import Mathlib

/-!
Shallow embedding of the ModZT2 online session/transport subsystem
(`src/online_manager.py` together with the state cache and password
boundary of `src/state_manager.py`).

Modelling conventions:
* a byte is a `Nat` in `0..255`; byte strings (Python `bytes`) are `List Nat`;
* the blocking TCP stream seen by one connection is a finite `List Nat`
  consumed from the front; `recv` returns the requested bytes whenever the
  stream still holds them and signals end-of-stream otherwise;
* Python dictionaries are association lists (updates processed left to
  right, a later binding for a key shadowing an earlier one);
* the two directories touched by the client (the staging inbox and the
  resolved game save directory) are finite maps from file names (byte
  strings) to file contents.
-/

/-- Truncation to 32 bits, the implicit word size of the SHA-256 core used
by `hashlib.sha256`. -/
def w32 (n : Nat) : Nat := n % 4294967296

/-- Right rotation of a 32-bit word.  The two shifted parts occupy disjoint
bit ranges, so their sum is their bitwise or. -/
def rotr (k x : Nat) : Nat := (x >>> k) + (x % (2 ^ k)) * 2 ^ (32 - k)

/-- Bitwise complement on 32 bits (the argument is assumed `< 2^32`). -/
def compl32 (x : Nat) : Nat := 4294967295 - x

def bigSigma0 (x : Nat) : Nat := rotr 2 x ^^^ rotr 13 x ^^^ rotr 22 x

def bigSigma1 (x : Nat) : Nat := rotr 6 x ^^^ rotr 11 x ^^^ rotr 25 x

def smallSigma0 (x : Nat) : Nat := rotr 7 x ^^^ rotr 18 x ^^^ (x >>> 3)

def smallSigma1 (x : Nat) : Nat := rotr 17 x ^^^ rotr 19 x ^^^ (x >>> 10)

def chFn (e f g : Nat) : Nat := (e &&& f) ^^^ (compl32 e &&& g)

def majFn (a b c : Nat) : Nat := (a &&& b) ^^^ (a &&& c) ^^^ (b &&& c)

/-- The 64 SHA-256 round constants (FIPS 180-4), in decimal. -/
def sha256K : List Nat :=
  [1116352408, 1899447441, 3049323471, 3921009573,
   961987163, 1508970993, 2453635748, 2870763221,
   3624381080, 310598401, 607225278, 1426881987,
   1925078388, 2162078206, 2614888103, 3248222580,
   3835390401, 4022224774, 264347078, 604807628,
   770255983, 1249150122, 1555081692, 1996064986,
   2554220882, 2821834349, 2952996808, 3210313671,
   3336571891, 3584528711, 113926993, 338241895,
   666307205, 773529912, 1294757372, 1396182291,
   1695183700, 1986661051, 2177026350, 2456956037,
   2730485921, 2820302411, 3259730800, 3345764771,
   3516065817, 3600352804, 4094571909, 275423344,
   430227734, 506948616, 659060556, 883997877,
   958139571, 1322822218, 1537002063, 1747873779,
   1955562222, 2024104815, 2227730452, 2361852424,
   2428436474, 2756734187, 3204031479, 3329325298]

/-- The SHA-256 initial hash state, in decimal. -/
def sha256H0 : List Nat :=
  [1779033703, 3144134277, 1013904242, 2773480762,
   1359893119, 2600822924, 528734635, 1541459225]

/-- Big-endian bytes of `v`, `k` bytes wide (the `int.to_bytes(k, "big")`
shape; truncates silently, callers supply the range side condition). -/
def beBytes : Nat → Nat → List Nat
  | 0, _ => []
  | k + 1, v => beBytes k (v / 256) ++ [v % 256]

/-- Big-endian value of a byte string (`int.from_bytes(_, "big")`). -/
def beToNat (l : List Nat) : Nat := l.foldl (fun a b => a * 256 + b) 0

/-- Group a byte string into big-endian 32-bit words (trailing bytes that do
not fill a word are dropped; SHA-256 only applies this to 64-byte blocks). -/
def wordsOfBytes : List Nat → List Nat
  | a :: b :: c :: d :: rest => (((a * 256 + b) * 256 + c) * 256 + d) :: wordsOfBytes rest
  | _ => []

/-- Message-schedule extension: produce the next `fuel` words from a sliding
window holding the previous 16. -/
def schedExt : Nat → List Nat → List Nat
  | 0, _ => []
  | f + 1, win =>
    let nw := w32 (smallSigma1 (win.getD 14 0) + win.getD 9 0 +
                   smallSigma0 (win.getD 1 0) + win.getD 0 0)
    nw :: schedExt f (win.tail ++ [nw])

/-- The 64-entry SHA-256 message schedule of one block. -/
def schedule (w16 : List Nat) : List Nat := w16 ++ schedExt 48 w16

/-- The eight SHA-256 working registers. -/
structure Regs where
  a : Nat
  b : Nat
  c : Nat
  d : Nat
  e : Nat
  f : Nat
  g : Nat
  h : Nat

/-- One SHA-256 compression round; `kw` pairs the round constant with the
scheduled word. -/
def compressStep (r : Regs) (kw : Nat × Nat) : Regs :=
  let t1 := w32 (r.h + bigSigma1 r.e + chFn r.e r.f r.g + kw.1 + kw.2)
  let t2 := w32 (bigSigma0 r.a + majFn r.a r.b r.c)
  ⟨w32 (t1 + t2), r.a, r.b, r.c, w32 (r.d + t1), r.e, r.f, r.g⟩

/-- Compress one 64-byte block into the chaining state. -/
def compressBlock (H : List Nat) (block : List Nat) : List Nat :=
  let w := schedule (wordsOfBytes block)
  let i : Regs := ⟨H.getD 0 0, H.getD 1 0, H.getD 2 0, H.getD 3 0,
                   H.getD 4 0, H.getD 5 0, H.getD 6 0, H.getD 7 0⟩
  let r := (sha256K.zip w).foldl compressStep i
  [w32 (H.getD 0 0 + r.a), w32 (H.getD 1 0 + r.b), w32 (H.getD 2 0 + r.c),
   w32 (H.getD 3 0 + r.d), w32 (H.getD 4 0 + r.e), w32 (H.getD 5 0 + r.f),
   w32 (H.getD 6 0 + r.g), w32 (H.getD 7 0 + r.h)]

/-- SHA-256 padding: `0x80`, zeros to 56 mod 64, then the bit length as a
64-bit big-endian integer. -/
def padMsg (m : List Nat) : List Nat :=
  m ++ 128 :: List.replicate ((119 - m.length % 64) % 64) 0 ++
    beBytes 8 ((m.length * 8) % 18446744073709551616)

/-- Fold the compression function over consecutive 64-byte blocks.  The fuel
argument (instantiated with the padded length) only bounds the recursion. -/
def sha256Chunks : Nat → List Nat → List Nat → List Nat
  | _, H, [] => H
  | 0, H, _ => H
  | f + 1, H, bytes => sha256Chunks f (compressBlock H (bytes.take 64)) (bytes.drop 64)

/-- SHA-256 of a byte string, as computed by `hashlib.sha256(_).digest()`. -/
def sha256 (m : List Nat) : List Nat :=
  let p := padMsg m
  (sha256Chunks p.length sha256H0 p).foldr (fun w acc => beBytes 4 w ++ acc) []

/-- Byte-wise xor of equally long byte strings. -/
def xorB (a b : List Nat) : List Nat := List.zipWith (fun x y => x ^^^ y) a b

/-- HMAC-SHA256 (`hmac.new(key, data, hashlib.sha256).digest()`,
`online_manager._hmac` with a non-empty session key). -/
def hmacSHA256 (key msg : List Nat) : List Nat :=
  let k0 := if 64 < key.length then sha256 key else key
  let kp := k0 ++ List.replicate (64 - k0.length) 0
  sha256 ((kp.map (fun b => b ^^^ 92)) ++ sha256 ((kp.map (fun b => b ^^^ 54)) ++ msg))

/-- Inner PBKDF2 iteration: xor together successive `HMAC(password, U)`
values. -/
def pbkdf2Iter (pw : List Nat) : Nat → List Nat → List Nat → List Nat
  | 0, _, acc => acc
  | i + 1, u, acc =>
    let u2 := hmacSHA256 pw u
    pbkdf2Iter pw i u2 (xorB acc u2)

/-- PBKDF2-HMAC-SHA256 with a 32-byte output (one block, so the output is
exactly the first xor-chain), as in
`hashlib.pbkdf2_hmac("sha256", password, salt, c, dklen=32)`. -/
def pbkdf2Sha256 (pw salt : List Nat) (c : Nat) : List Nat :=
  let u1 := hmacSHA256 pw (salt ++ beBytes 4 1)
  pbkdf2Iter pw (c - 1) u1 u1

/-- `online_manager._derive_key_from_password`: PBKDF2-HMAC-SHA256 over the
UTF-8 password and the session salt, 200 000 iterations, 32-byte key. -/
def deriveKeyFromPassword (password salt : List Nat) : List Nat :=
  pbkdf2Sha256 password salt 200000

example : sha256 [] =
    [227, 176, 196, 66, 152, 252, 28, 20,
     154, 251, 244, 200, 153, 111, 185, 36,
     39, 174, 65, 228, 100, 155, 147, 76,
     164, 149, 153, 27, 120, 82, 184, 85] := by decide

/-! ## Generic list utilities -/

/-- Split a byte string at the first occurrence of byte `b`: the bytes before
it and the bytes after it, or `none` when `b` does not occur.  This is the
shape shared by `_recv_line` (splitting the stream at a newline) and the
`split(":", 1)` header parsing. -/
def splitAtFirst (b : Nat) : List Nat → Option (List Nat × List Nat)
  | [] => none
  | c :: r =>
    if c = b then some ([], r)
    else match splitAtFirst b r with
      | none => none
      | some (x, y) => some (c :: x, y)

theorem splitAtFirst_append (b : Nat) (l r : List Nat) (h : b ∉ l) :
    splitAtFirst b (l ++ b :: r) = some (l, r) := by
  induction l with
  | nil => simp [splitAtFirst]
  | cons c t ih =>
    have hcb : c ≠ b := fun hc => h (hc ▸ List.mem_cons_self c t)
    have ht : b ∉ t := fun hm => h (List.mem_cons_of_mem c hm)
    simp [splitAtFirst, hcb, ih ht]

theorem take_append_length (a b : List Nat) : (a ++ b).take a.length = a := by
  induction a with
  | nil => simp
  | cons c t ih => simp [ih]

theorem drop_append_length (a b : List Nat) : (a ++ b).drop a.length = b := by
  induction a with
  | nil => simp
  | cons c t ih => simp [ih]

theorem filter_ne_idem (l : List Nat) (p : Nat) :
    (l.filter (fun q => q ≠ p)).filter (fun q => q ≠ p) = l.filter (fun q => q ≠ p) := by
  induction l with
  | nil => rfl
  | cons c t ih =>
    by_cases h : c = p
    · simp [List.filter, h, ih]
    · simp [List.filter, h, ih]

/-- Last binding of `k` in an association list: the value of the latest
occurrence, matching assignment order into a Python dict. -/
def assocLast {α β : Type} [DecidableEq α] (k : α) : List (α × β) → Option β
  | [] => none
  | (a, b) :: t =>
    match assocLast k t with
    | some v => some v
    | none => if a = k then some b else none

/-- `takeWhile`/`dropWhile` split an append at the predicate boundary. -/
theorem takeWhile_dropWhile_append (p : Nat → Bool) (a b : List Nat)
    (ha : ∀ x ∈ a, p x = true) (hb : ∀ y, b.head? = some y → p y = false) :
    (a ++ b).takeWhile p = a ∧ (a ++ b).dropWhile p = b := by
  induction a with
  | nil =>
    cases b with
    | nil => simp [List.takeWhile, List.dropWhile]
    | cons y t =>
      have := hb y rfl
      simp [List.takeWhile, List.dropWhile, this]
  | cons c t ih =>
    have hc : p c = true := ha c (List.mem_cons_self c t)
    have ht : ∀ x ∈ t, p x = true := fun x hx => ha x (List.mem_cons_of_mem c hx)
    have ihh := ih ht
    simp [List.takeWhile, List.dropWhile, hc, ihh.1, ihh.2]

/-! ## Decimal integers (`str(int)` and `int(str)`) -/

/-- Is the byte an ASCII digit? -/
def isDigit (b : Nat) : Bool := 48 ≤ b && b ≤ 57

/-- Decimal digits of `n` (fuelled; fuel `n + 1` always suffices). -/
def decNatAux : Nat → Nat → List Nat
  | 0, _ => []
  | f + 1, n => if n < 10 then [48 + n] else decNatAux f (n / 10) ++ [48 + n % 10]

/-- Canonical decimal representation of a natural number (`str(n)`). -/
def decNat (n : Nat) : List Nat := decNatAux (n + 1) n

/-- Canonical decimal representation of an integer (`str(z)`). -/
def intDec (z : Int) : List Nat :=
  if z < 0 then 45 :: decNat z.natAbs else decNat z.toNat

/-- Value of a digit string. -/
def natOfDigits (ds : List Nat) : Nat := ds.foldl (fun a d => a * 10 + (d - 48)) 0

theorem natOfDigits_append (a : List Nat) (d : Nat) :
    natOfDigits (a ++ [d]) = natOfDigits a * 10 + (d - 48) := by
  simp [natOfDigits]

theorem decNatAux_all_digits (f n : Nat) (h : n < f) :
    ∀ d ∈ decNatAux f n, 48 ≤ d ∧ d ≤ 57 := by
  induction f generalizing n with
  | zero => omega
  | succ f ih =>
    intro d hd
    by_cases h10 : n < 10
    · simp [decNatAux, h10] at hd
      omega
    · simp [decNatAux, h10] at hd
      rcases hd with hd | hd
      · exact ih (n / 10) (by omega) d hd
      · omega

theorem natOfDigits_decNatAux (f n : Nat) (h : n < f) :
    natOfDigits (decNatAux f n) = n := by
  induction f generalizing n with
  | zero => omega
  | succ f ih =>
    by_cases h10 : n < 10
    · simp [decNatAux, h10, natOfDigits]
    · have hdiv : n / 10 < f := by omega
      simp [decNatAux, h10, natOfDigits_append, ih (n / 10) hdiv]
      omega

theorem natOfDigits_decNat (n : Nat) : natOfDigits (decNat n) = n :=
  natOfDigits_decNatAux (n + 1) n (Nat.lt_succ_self n)

theorem decNat_all_digits (n : Nat) : ∀ d ∈ decNat n, 48 ≤ d ∧ d ≤ 57 :=
  decNatAux_all_digits (n + 1) n (Nat.lt_succ_self n)

theorem decNatAux_ne_nil (f n : Nat) (h : n < f) : decNatAux f n ≠ [] := by
  cases f with
  | zero => omega
  | succ f =>
    by_cases h10 : n < 10 <;> simp [decNatAux, h10]

theorem decNat_ne_nil (n : Nat) : decNat n ≠ [] :=
  decNatAux_ne_nil (n + 1) n (Nat.lt_succ_self n)

theorem newline_not_mem_decNat (n : Nat) : 10 ∉ decNat n := by
  intro hm
  have := decNat_all_digits n 10 hm
  omega


/-! ## Python string helpers used by the header parser -/

/-- Python `str.strip` whitespace bytes: space, tab, LF, VT, FF, CR. -/
def isWS (b : Nat) : Bool := b == 32 || b == 9 || b == 10 || b == 11 || b == 12 || b == 13

/-- `bytes.strip()` / `str.strip()`: drop leading and trailing whitespace. -/
def stripB (l : List Nat) : List Nat :=
  ((l.dropWhile isWS).reverse.dropWhile isWS).reverse

/-- `str.upper()` on ASCII bytes. -/
def upperB (l : List Nat) : List Nat :=
  l.map (fun c => if 97 ≤ c ∧ c ≤ 122 then c - 32 else c)

theorem dropWhile_of_forall_false (p : Nat → Bool) (l : List Nat)
    (h : ∀ x ∈ l, p x = false) : l.dropWhile p = l := by
  cases l with
  | nil => rfl
  | cons c t => simp [List.dropWhile, h c (List.mem_cons_self c t)]

theorem stripB_of_no_ws (l : List Nat) (h : ∀ x ∈ l, isWS x = false) :
    stripB l = l := by
  unfold stripB
  rw [dropWhile_of_forall_false isWS l h]
  rw [dropWhile_of_forall_false isWS l.reverse (fun x hx => h x (List.mem_reverse.mp hx))]
  exact List.reverse_reverse l

/-- `int(header.get("SIZE", "0"))`: Python `int` on a decimal string —
surrounding whitespace stripped, an optional single sign, then a non-empty
digit run.  (Python additionally allows underscore digit separators; the
protocol never produces them and they are not modelled.)  A failure raises
`ValueError` in the source, which the caller's `except` surfaces as
termination of the receive loop; here it is `none`. -/
def parsePyIntCore : List Nat → Option Int
  | [] => none
  | c :: ds =>
    if c = 45 then
      if ds ≠ [] ∧ ds.all isDigit = true then some (-(natOfDigits ds : Int)) else none
    else if c = 43 then
      if ds ≠ [] ∧ ds.all isDigit = true then some ((natOfDigits ds : Int)) else none
    else if (c :: ds).all isDigit = true then some ((natOfDigits (c :: ds) : Int)) else none

def parsePyInt (s : List Nat) : Option Int := parsePyIntCore (stripB s)

theorem parsePyInt_decNat (n : Nat) : parsePyInt (decNat n) = some (n : Int) := by
  have hdig := decNat_all_digits n
  have hws : ∀ x ∈ decNat n, isWS x = false := by
    intro x hx
    have := hdig x hx
    simp [isWS]
    omega
  have hstrip := stripB_of_no_ws (decNat n) hws
  unfold parsePyInt
  rw [hstrip]
  cases hd : decNat n with
  | nil => exact absurd hd (decNat_ne_nil n)
  | cons c ds =>
    have hc := hdig c (by rw [hd]; exact List.mem_cons_self c ds)
    have hc45 : ¬ (c = 45) := by omega
    have hc43 : ¬ (c = 43) := by omega
    have hall : (c :: ds).all isDigit = true := by
      rw [← hd]
      rw [List.all_eq_true]
      intro x hx
      have := hdig x hx
      simp [isDigit]
      omega
    rw [parsePyIntCore, if_neg hc45, if_neg hc43, if_pos hall]
    rw [← hd, natOfDigits_decNat]

/-! ## Base64 (`base64.b64encode` / `b64decode` on canonical input) -/

/-- Value of one base64 alphabet byte. -/
def b64val (c : Nat) : Option Nat :=
  if 65 ≤ c ∧ c ≤ 90 then some (c - 65)
  else if 97 ≤ c ∧ c ≤ 122 then some (c - 71)
  else if 48 ≤ c ∧ c ≤ 57 then some (c + 4)
  else if c = 43 then some 62
  else if c = 47 then some 63
  else none

/-- Byte of one 6-bit value. -/
def b64chr (n : Nat) : Nat :=
  if n < 26 then 65 + n
  else if n < 52 then 97 + (n - 26)
  else if n < 62 then 48 + (n - 52)
  else if n = 62 then 43 else 47

/-- `base64.b64encode`, grouped three input bytes at a time. -/
def b64encodeAux : Nat → List Nat → List Nat
  | 0, _ => []
  | f + 1, s =>
    match s with
    | [] => []
    | [x] => [b64chr (x / 4), b64chr (x % 4 * 16), 61, 61]
    | [x, y] => [b64chr (x / 4), b64chr (x % 4 * 16 + y / 16), b64chr (y % 16 * 4), 61]
    | x :: y :: z :: rest =>
      [b64chr (x / 4), b64chr (x % 4 * 16 + y / 16), b64chr (y % 16 * 4 + z / 64),
       b64chr (z % 64)] ++ b64encodeAux f rest

def b64encode (s : List Nat) : List Nat := b64encodeAux s.length s

/-- `base64.b64decode` restricted to canonical encodings (groups of four
alphabet bytes with standard trailing padding); anything else is `none`,
standing for the `binascii.Error` the source lets escape to its caller. -/
def b64decodeAux : Nat → List Nat → Option (List Nat)
  | 0, s => if s = [] then some [] else none
  | f + 1, s =>
    match s with
    | [] => some []
    | c1 :: c2 :: c3 :: c4 :: rest =>
      match b64val c1, b64val c2 with
      | some a, some b =>
        if c3 = 61 then
          if c4 = 61 ∧ rest = [] then some [a * 4 + b / 16] else none
        else
          match b64val c3 with
          | some c =>
            if c4 = 61 then
              if rest = [] then some [a * 4 + b / 16, b % 16 * 16 + c / 4] else none
            else
              match b64val c4 with
              | some d =>
                (b64decodeAux f rest).map
                  (fun t => (a * 4 + b / 16) :: (b % 16 * 16 + c / 4) :: (c % 4 * 64 + d) :: t)
              | none => none
          | none => none
      | _, _ => none
    | _ => none

def b64decode (s : List Nat) : Option (List Nat) := b64decodeAux s.length s

example : b64decode [65, 65, 65, 65] = some [0, 0, 0] := by decide
example : b64decode (b64encode [1, 2, 3, 4]) = some [1, 2, 3, 4] := by decide

/-! ## Wire-protocol byte constants -/

/-- `"SAVE"` -/
def tagSAVE : List Nat := [83, 65, 86, 69]

/-- `"STATE"` -/
def tagSTATE : List Nat := [83, 84, 65, 84, 69]

/-- `"HELLO"` -/
def tagHELLO : List Nat := [72, 69, 76, 76, 79]

/-- `"SIGNING:"` -/
def keySIGNINGc : List Nat := [83, 73, 71, 78, 73, 78, 71, 58]

/-- `"SALT:"` -/
def keySALTc : List Nat := [83, 65, 76, 84, 58]

/-- `"FILENAME"` -/
def keyFILENAME : List Nat := [70, 73, 76, 69, 78, 65, 77, 69]

/-- `"SIZE"` -/
def keySIZE : List Nat := [83, 73, 90, 69]

/-- `"SIGNED"` -/
def keySIGNED : List Nat := [83, 73, 71, 78, 69, 68]

/-- `"HMAC"` -/
def keyHMAC : List Nat := [72, 77, 65, 67]

/-- `"0"` -/
def litZERO : List Nat := [48]

/-- `"1"` -/
def litONE : List Nat := [49]

/-- `"received.z2s"`, the default filename of a `SAVE` frame. -/
def defaultSaveName : List Nat := [114, 101, 99, 101, 105, 118, 101, 100, 46, 122, 50, 115]

/-- `".part"`, the staging suffix inside the incoming inbox. -/
def suffixPart : List Nat := [46, 112, 97, 114, 116]

/-- `".bak_"`, the backup-name separator. -/
def suffixBak : List Nat := [46, 98, 97, 107, 95]

/-! ## Stream primitives (`_recv_line`, `_recvn`) -/

/-- `online_manager._recv_line`: read single bytes until a newline; the line
without its newline, or `none` when the stream ends first (partial bytes are
discarded, as in the source). -/
def recvLine (s : List Nat) : Option (List Nat × List Nat) := splitAtFirst 10 s

/-- `online_manager._recvn`: read exactly `n` bytes, `none` when the stream
ends first. -/
def recvn (n : Nat) (s : List Nat) : Option (List Nat × List Nat) :=
  if n ≤ s.length then some (s.take n, s.drop n) else none

theorem recvLine_append (l r : List Nat) (h : 10 ∉ l) :
    recvLine (l ++ 10 :: r) = some (l, r) := splitAtFirst_append 10 l r h

theorem recvn_exact (a b : List Nat) : recvn a.length (a ++ b) = some (a, b) := by
  unfold recvn
  rw [if_pos (by simp)]
  rw [take_append_length, drop_append_length]

/-! ## SAVE header block parsing (`_listen_to_host`, header loop) -/

/-- One header line `k:v` parsed as the source does:
`k.strip().upper()` mapped to `v.strip()`; a line without a colon raises
`ValueError`, which the source swallows (`except: pass`), so it contributes
nothing. -/
def parseHeaderLine (l : List Nat) : Option (List Nat × List Nat) :=
  (splitAtFirst 58 l).map (fun kv => (upperB (stripB kv.1), stripB kv.2))

/-- The mapping built from a header block, last binding per key winning
(Python dict assignment). -/
def parsedHeaders (hs : List (List Nat)) : List (List Nat × List Nat) :=
  hs.filterMap parseHeaderLine

/-- The header-reading loop: lines until an empty line (the terminator) or
end of stream; returns the accumulated bindings and the remaining stream
(empty when the stream ended inside the block, since `_recv_line` has then
consumed it).  Fuelled; each iteration consumes at least one byte, so the
initial `length + 1` always suffices. -/
def readHeadersAux : Nat → List (List Nat × List Nat) → List Nat →
    List (List Nat × List Nat) × List Nat
  | 0, acc, s => (acc, s)
  | f + 1, acc, s =>
    match recvLine s with
    | none => (acc, [])
    | some (l, r) =>
      if l = [] then (acc, r)
      else readHeadersAux f (acc ++ (parseHeaderLine l).toList) r

def readHeaders (s : List Nat) : List (List Nat × List Nat) × List Nat :=
  readHeadersAux (s.length + 1) [] s

/-- Serialize a block of header lines, each newline-terminated. -/
def encodeLines (hs : List (List Nat)) : List Nat :=
  hs.foldr (fun l acc => l ++ 10 :: acc) []

/-- A well-formed header block: every line is non-empty and newline-free. -/
def WfLines (hs : List (List Nat)) : Prop := ∀ l ∈ hs, l ≠ [] ∧ 10 ∉ l

instance (hs : List (List Nat)) : Decidable (WfLines hs) :=
  inferInstanceAs (Decidable (∀ l ∈ hs, l ≠ [] ∧ 10 ∉ l))

theorem length_le_encodeLines (hs : List (List Nat)) :
    hs.length ≤ (encodeLines hs).length := by
  induction hs with
  | nil => simp [encodeLines]
  | cons l t ih =>
    simp only [encodeLines, List.foldr] at ih ⊢
    simp only [List.length_append, List.length_cons]
    omega

theorem readHeadersAux_spec (hs : List (List Nat)) :
    ∀ (f : Nat) (acc : List (List Nat × List Nat)) (rest : List Nat),
    WfLines hs → hs.length < f →
    readHeadersAux f acc (encodeLines hs ++ 10 :: rest) =
      (acc ++ parsedHeaders hs, rest) := by
  induction hs with
  | nil =>
    intro f acc rest _ hf
    cases f with
    | zero => omega
    | succ f =>
      simp [encodeLines, readHeadersAux, recvLine, splitAtFirst, parsedHeaders]
  | cons l t ih =>
    intro f acc rest hwf hf
    cases f with
    | zero => omega
    | succ f =>
      have hl := hwf l (List.mem_cons_self l t)
      have hwt : WfLines t := fun x hx => hwf x (List.mem_cons_of_mem l hx)
      have henc : encodeLines (l :: t) ++ 10 :: rest =
          l ++ 10 :: (encodeLines t ++ 10 :: rest) := by
        simp [encodeLines]
      rw [henc]
      simp only [readHeadersAux, recvLine_append l _ hl.2]
      rw [if_neg hl.1]
      rw [ih f (acc ++ (parseHeaderLine l).toList) rest hwt (by simpa using hf)]
      have hfm : parsedHeaders (l :: t) = (parseHeaderLine l).toList ++ parsedHeaders t := by
        cases hpl : parseHeaderLine l <;>
          simp [parsedHeaders, List.filterMap_cons, hpl]
      rw [hfm, List.append_assoc]

theorem readHeaders_encode (hs : List (List Nat)) (rest : List Nat)
    (hwf : WfLines hs) :
    readHeaders (encodeLines hs ++ 10 :: rest) = (parsedHeaders hs, rest) := by
  unfold readHeaders
  have hfuel : hs.length < (encodeLines hs ++ 10 :: rest).length + 1 := by
    have := length_le_encodeLines hs
    simp only [List.length_append, List.length_cons]
    omega
  rw [readHeadersAux_spec hs _ [] rest hwf hfuel]
  simp

/-! ## JSON (the flat-mapping subset exchanged over `STATE` frames)

`push_state_update` serializes a Python dict with `json.dumps` and the
client parses with `json.loads`.  The values exchanged are flat string-to-
(int-or-string) mappings; the codec below models `json.dumps` exactly on
that subset (insertion order, `", "` and `": "` separators, no escapes —
enforced by the `safeBytes` side condition, under which `ensure_ascii`
escaping never fires) and `json.loads` on the grammar `dumps` emits.
Payloads outside the subset parse to `none`, standing for the exception the
source logs before continuing its loop. -/

/-- A JSON scalar: integer or string (as UTF-8 bytes). -/
inductive JVal where
  | jint (z : Int)
  | jstr (s : List Nat)
deriving DecidableEq

/-- A parsed JSON document as seen by `apply_state_diff`: a flat object
(Python dict), an array, or a bare scalar — the latter two are the
non-mapping shapes the state store rejects. -/
inductive JTop where
  | jobj (entries : List (List Nat × JVal))
  | jarr (elems : List JVal)
  | jprim (v : JVal)
deriving DecidableEq

/-- Printable ASCII, no quote, no backslash: exactly the bytes `json.dumps`
emits verbatim inside a string literal. -/
def safeByte (b : Nat) : Bool := 32 ≤ b && b ≤ 126 && b != 34 && b != 92

def safeBytes (l : List Nat) : Bool := l.all safeByte

def valOk : JVal → Bool
  | .jint _ => true
  | .jstr s => safeBytes s

def entriesOk (es : List (List Nat × JVal)) : Bool :=
  es.all (fun kv => safeBytes kv.1 && valOk kv.2)

/-- Serialize one scalar. -/
def jencVal : JVal → List Nat
  | .jint z => intDec z
  | .jstr s => 34 :: s ++ [34]

/-- Serialize one `"key": value` member. -/
def jencPair (kv : List Nat × JVal) : List Nat :=
  34 :: kv.1 ++ [34, 58, 32] ++ jencVal kv.2

/-- Members joined by `", "`. -/
def jencMembers : List (List Nat × JVal) → List Nat
  | [] => []
  | [e] => jencPair e
  | e :: t => jencPair e ++ [44, 32] ++ jencMembers t

/-- `json.dumps` of a flat dict (UTF-8 bytes). -/
def jdumps (es : List (List Nat × JVal)) : List Nat :=
  123 :: jencMembers es ++ [125]

/-- Parse a string literal (no escapes in the modelled subset). -/
def parseJString (s : List Nat) : Option (List Nat × List Nat) :=
  match s with
  | [] => none
  | c :: r => if c = 34 then splitAtFirst 34 r else none

/-- Parse one scalar value. -/
def parseVal (s : List Nat) : Option (JVal × List Nat) :=
  match s with
  | [] => none
  | c :: r =>
    if c = 34 then (splitAtFirst 34 r).map (fun p => (JVal.jstr p.1, p.2))
    else if c = 45 then
      if r.takeWhile isDigit = [] then none
      else some (JVal.jint (-(natOfDigits (r.takeWhile isDigit) : Int)), r.dropWhile isDigit)
    else
      if (c :: r).takeWhile isDigit = [] then none
      else some (JVal.jint ((natOfDigits ((c :: r).takeWhile isDigit) : Int)),
                 (c :: r).dropWhile isDigit)

/-- Parse the members of a non-empty object, consuming the closing brace,
which must end the document. -/
def parseMembers : Nat → List (List Nat × JVal) → List Nat → Option JTop
  | 0, _, _ => none
  | f + 1, acc, s =>
    match parseJString s with
    | none => none
    | some (k, r1) =>
      match r1 with
      | a :: b :: r2 =>
        if a = 58 ∧ b = 32 then
          match parseVal r2 with
          | none => none
          | some (v, r3) =>
            match r3 with
            | [c] => if c = 125 then some (.jobj (acc ++ [(k, v)])) else none
            | c :: d :: r4 =>
              if c = 44 ∧ d = 32 then parseMembers f (acc ++ [(k, v)]) r4 else none
            | [] => none
        else none
      | _ => none

/-- `json.loads` on the modelled subset. -/
def jparse (s : List Nat) : Option JTop :=
  match s with
  | [] => none
  | c :: r =>
    if c = 123 then
      if r = [125] then some (.jobj []) else parseMembers (r.length + 1) [] r
    else
      match parseVal (c :: r) with
      | none => none
      | some p => if p.2 = [] then some (.jprim p.1) else none

theorem safeBytes_no_quote (l : List Nat) (h : safeBytes l = true) : 34 ∉ l := by
  intro hm
  have := (List.all_eq_true.mp h) 34 hm
  simp [safeByte] at this

theorem parseJString_enc (k r : List Nat) (h : 34 ∉ k) :
    parseJString (34 :: (k ++ 34 :: r)) = some (k, r) := by
  simp only [parseJString, if_pos rfl]
  exact splitAtFirst_append 34 k r h

theorem parseVal_enc (v : JVal) (r : List Nat) (hv : valOk v = true)
    (hr : ∀ y, r.head? = some y → isDigit y = false) :
    parseVal (jencVal v ++ r) = some (v, r) := by
  cases v with
  | jstr s =>
    have hs : 34 ∉ s := safeBytes_no_quote s hv
    have : jencVal (JVal.jstr s) ++ r = 34 :: (s ++ 34 :: r) := by
      simp [jencVal]
    rw [this]
    simp only [parseVal, if_pos rfl]
    rw [splitAtFirst_append 34 s r hs]
    rfl
  | jint z =>
    by_cases hz : z < 0
    · have henc : jencVal (JVal.jint z) = 45 :: decNat z.natAbs := by
        simp [jencVal, intDec, hz]
      rw [henc]
      have hds := takeWhile_dropWhile_append isDigit (decNat z.natAbs) r
        (fun x hx => by
          have := decNat_all_digits z.natAbs x hx
          simp [isDigit]; omega) hr
      have hne := decNat_ne_nil z.natAbs
      have hval : -((z.natAbs : Nat) : Int) = z := by omega
      simp [parseVal, List.cons_append, hds.1, hds.2, hne, natOfDigits_decNat, hval]
      rw [abs_of_neg hz]
      omega
    · have henc : jencVal (JVal.jint z) = decNat z.toNat := by
        simp [jencVal, intDec, hz]
      rw [henc]
      cases hd : decNat z.toNat with
      | nil => exact absurd hd (decNat_ne_nil z.toNat)
      | cons c ds =>
        have hdig : ∀ x ∈ c :: ds, 48 ≤ x ∧ x ≤ 57 := by
          rw [← hd]; exact decNat_all_digits z.toNat
        have hc := hdig c (List.mem_cons_self c ds)
        have hds := takeWhile_dropWhile_append isDigit (c :: ds) r
          (fun x hx => by have := hdig x hx; simp [isDigit]; omega) hr
        have h34 : ¬ (c = 34) := by omega
        have h45 : ¬ (c = 45) := by omega
        have h1 : ((c :: (ds ++ r)).takeWhile isDigit) = c :: ds := by
          have := hds.1; simpa using this
        have h2 : ((c :: (ds ++ r)).dropWhile isDigit) = r := by
          have := hds.2; simpa using this
        have hval : ((z.toNat : Nat) : Int) = z := by omega
        have hnat : natOfDigits (c :: ds) = z.toNat := by
          rw [← hd, natOfDigits_decNat]
        simp [parseVal, List.cons_append, h34, h45, h1, h2, hnat, hval]

theorem jencPair_ne_nil (kv : List Nat × JVal) : jencPair kv ≠ [] := by
  simp [jencPair]

theorem jencMembers_cons_ne_nil (e : List Nat × JVal) (t : List (List Nat × JVal)) :
    jencMembers (e :: t) ≠ [] := by
  cases t <;> simp [jencMembers, jencPair]

theorem jencPair_length_pos (kv : List Nat × JVal) : 1 ≤ (jencPair kv).length := by
  simp [jencPair]

theorem length_le_jencMembers (e : List Nat × JVal) (t : List (List Nat × JVal)) :
    (e :: t).length ≤ (jencMembers (e :: t)).length := by
  induction t generalizing e with
  | nil =>
    have := jencPair_length_pos e
    simp [jencMembers]
    omega
  | cons e2 t2 ih =>
    have h1 := jencPair_length_pos e
    have h2 := ih e2
    simp only [jencMembers, List.length_cons, List.length_append] at h2 ⊢
    omega

theorem parseMembers_enc (es : List (List Nat × JVal)) :
    ∀ (f : Nat) (acc : List (List Nat × JVal)), es ≠ [] → entriesOk es = true →
    es.length < f →
    parseMembers f acc (jencMembers es ++ [125]) = some (.jobj (acc ++ es)) := by
  induction es with
  | nil => intro f acc hne _ _; exact absurd rfl hne
  | cons e t ih =>
    intro f acc _ hok hf
    obtain ⟨k, v⟩ := e
    cases f with
    | zero => omega
    | succ f =>
      have hok' := hok
      simp only [entriesOk, List.all_eq_true] at hok'
      have hmem := hok' (k, v) (List.mem_cons_self _ _)
      have hkok : safeBytes k = true ∧ valOk v = true := by
        simpa [Bool.and_eq_true] using hmem
      have htok : entriesOk t = true := by
        simp only [entriesOk, List.all_eq_true]
        intro x hx
        exact hok' x (List.mem_cons_of_mem _ hx)
      cases t with
      | nil =>
        have hstream : jencMembers [(k, v)] ++ [125] =
            34 :: (k ++ 34 :: (58 :: 32 :: (jencVal v ++ [125]))) := by
          simp [jencMembers, jencPair]
        have hjs := parseJString_enc k (58 :: 32 :: (jencVal v ++ [125]))
          (safeBytes_no_quote k hkok.1)
        have hpv := parseVal_enc v [125] hkok.2
          (fun y hy => by
            simp at hy
            subst hy
            decide)
        rw [hstream]
        simp [parseMembers, hjs, hpv]
      | cons e2 t2 =>
        have hstream : jencMembers ((k, v) :: e2 :: t2) ++ [125] =
            34 :: (k ++ 34 :: (58 :: 32 ::
              (jencVal v ++ (44 :: 32 :: (jencMembers (e2 :: t2) ++ [125]))))) := by
          simp [jencMembers, jencPair]
        have hjs := parseJString_enc k
          (58 :: 32 :: (jencVal v ++ (44 :: 32 :: (jencMembers (e2 :: t2) ++ [125]))))
          (safeBytes_no_quote k hkok.1)
        have hpv := parseVal_enc v (44 :: 32 :: (jencMembers (e2 :: t2) ++ [125])) hkok.2
          (fun y hy => by
            simp at hy
            subst hy
            decide)
        have hrec := ih f (acc ++ [(k, v)]) (by simp) htok (by simpa using hf)
        rw [hstream]
        simp [parseMembers, hjs, hpv, hrec]

theorem append_single_ne (l : List Nat) (b : Nat) (h : l ≠ []) : l ++ [b] ≠ [b] := by
  intro hc
  have := congrArg List.length hc
  simp at this
  exact h this

/-- Round trip of the modelled codec: a well-formed flat mapping serialized
by `jdumps` parses back to exactly the same mapping. -/
theorem jparse_jdumps (es : List (List Nat × JVal)) (hok : entriesOk es = true) :
    jparse (jdumps es) = some (.jobj es) := by
  cases es with
  | nil => decide
  | cons e t =>
    have hne := jencMembers_cons_ne_nil e t
    have hr : jencMembers (e :: t) ++ [125] ≠ [125] := append_single_ne _ 125 hne
    have hlen : (e :: t).length < (jencMembers (e :: t) ++ [125]).length + 1 := by
      have := length_le_jencMembers e t
      simp only [List.length_append, List.length_cons, List.length_nil] at this ⊢
      omega
    have hpm := parseMembers_enc (e :: t) ((jencMembers (e :: t) ++ [125]).length + 1) []
      (by simp) hok hlen
    rw [show jdumps (e :: t) = 123 :: (jencMembers (e :: t) ++ [125]) from rfl]
    simp only [jparse]
    rw [if_pos trivial, if_neg hr, hpm]
    simp

/-! ## State store (`state_manager.py`) -/

/-- The process-wide zoo-state cache (`_ZOO_STATE_CACHE`), keyed by the
UTF-8 bytes of the JSON keys. -/
def Cache := List Nat → Option JVal

def emptyCache : Cache := fun _ => none

/-- `_ZOO_STATE_CACHE.update(diff)`: dict assignments processed left to
right, an incoming key overwriting the cached binding. -/
def cacheUpdate (c : Cache) (entries : List (List Nat × JVal)) : Cache :=
  entries.foldl (fun acc kv => fun q => if q = kv.1 then some kv.2 else acc q) c

/-- `state_manager.apply_state_diff`: non-dict input is logged and ignored
with the cache untouched; a dict is shallow-merged into the cache, after
which `_update_ui` hands a snapshot copy to the registered UI callback.
The boolean records whether that callback path was reached. -/
def applyStateDiff (j : JTop) (c : Cache) : Cache × Bool :=
  match j with
  | .jobj entries => (cacheUpdate c entries, true)
  | _ => (c, false)

/-- Merged lookups are last-writer-wins per key: a key bound by the diff
takes the diff's (latest) value, every other key keeps its cached value. -/
theorem cacheUpdate_lookup (entries : List (List Nat × JVal)) :
    ∀ (c : Cache) (q : List Nat),
    cacheUpdate c entries q = (assocLast q entries).elim (c q) some := by
  induction entries with
  | nil => intro c q; simp [cacheUpdate, assocLast]
  | cons kv t ih =>
    intro c q
    obtain ⟨a, b⟩ := kv
    have step : cacheUpdate c ((a, b) :: t) =
        cacheUpdate (fun q2 => if q2 = a then some b else c q2) t := rfl
    rw [step, ih]
    cases hal : assocLast q t with
    | some v => simp [assocLast, hal]
    | none =>
      by_cases hqa : q = a
      · subst hqa
        simp [assocLast, hal]
      · have : ¬ (a = q) := fun h => hqa h.symm
        simp [assocLast, hal, hqa, this]

/-! ## Client-side filesystem and effect state -/

/-- A directory as a finite map from file name bytes to content bytes. -/
def FS := List Nat → Option (List Nat)

def fsEmpty : FS := fun _ => none

def fsSet (fs : FS) (n d : List Nat) : FS := fun m => if m = n then some d else fs m

def fsRemove (fs : FS) (n : List Nat) : FS := fun m => if m = n then none else fs m

/-- `dst_path + ".bak_" + timestamp`: the backup name used before an
overwrite. -/
def backupName (fn ts : List Nat) : List Nat := fn ++ suffixBak ++ ts

/-- State threaded through the client receive loop: the staging inbox
(`INCOMING_DIR`), whether `_ensure_save_dir` resolves (its failure is caught
and skips only the auto-apply step), the resolved save directory, the diffs
forwarded to `state_manager.apply_state_diff`, the cache those diffs
produced, and how often the UI callback path fired. -/
structure MSt where
  incoming : FS
  saveDirOk : Bool
  saveDir : FS
  diffs : List JTop
  cache : Cache
  uiCalls : Nat

/-- Applying one accepted `SAVE` payload (`_listen_to_host`, lines 369-410):
write `<name>.part` in the inbox, `os.replace` it to `<name>`, then — when
the save directory resolves — rename any existing `<name>` there to a
timestamped backup and write the new content.  `ts` is the
`time.strftime` value at this application. -/
def applySaveEffect (st : MSt) (ts fn d : List Nat) : MSt :=
  let partName := fn ++ suffixPart
  let inc := fsSet (fsRemove (fsSet st.incoming partName d) partName) fn d
  if st.saveDirOk then
    let sd :=
      match st.saveDir fn with
      | some old => fsSet (fsRemove st.saveDir fn) (backupName fn ts) old
      | none => st.saveDir
    { st with incoming := inc, saveDir := fsSet sd fn d }
  else
    { st with incoming := inc }

/-- Forward one parsed `STATE` payload to the state store. -/
def applyDiffEffect (st : MSt) (j : JTop) : MSt :=
  let r := applyStateDiff j st.cache
  { st with diffs := st.diffs ++ [j], cache := r.1,
            uiCalls := st.uiCalls + (if r.2 then 1 else 0) }

/-- The byte string the HMAC covers:
`filename + b"\n" + str(size) + b"\n" + data`. -/
def saveMsg (fn : List Nat) (n : Nat) (d : List Nat) : List Nat :=
  fn ++ 10 :: (decNat n ++ 10 :: d)

/-! ## The client dispatch loop (`_listen_to_host`, main `while`) -/

/-- One pass of the client's frame-dispatch loop, fuelled (the loop consumes
at least one byte per iteration, so `length + 1` fuel always suffices).
Mirrors `_listen_to_host`:

* end of stream, an empty command line, or an unknown tag stop the loop;
* `SAVE`: read the header block, then `FILENAME` (default
  `received.z2s`), `SIZE` (default `"0"`, `int()` failure kills the
  listener), `SIGNED` (default `"0"`), `HMAC`; a size `≤ 0` is rejected
  before any payload byte is read and the loop continues; then exactly
  `size` payload bytes; a signed frame is dropped (loop continues) on a
  missing key/tag or an HMAC mismatch; an accepted frame runs
  `applySaveEffect`;
* `STATE`: a 4-byte big-endian length, that many payload bytes (an empty
  read stops the loop), `jparse`, and on success `applyDiffEffect`; a parse
  failure is logged and the loop continues. -/
def dispatchLoop (key : Option (List Nat)) : Nat → List (List Nat) → MSt → List Nat → MSt
  | 0, _, st, _ => st
  | fuel + 1, tss, st, s =>
    match recvLine s with
    | none => st
    | some (cmd, r) =>
      if cmd = [] then st
      else if cmd = tagSAVE then
        let hp := readHeaders r
        let filename := (assocLast keyFILENAME hp.1).getD defaultSaveName
        match parsePyInt ((assocLast keySIZE hp.1).getD litZERO) with
        | none => st
        | some size =>
          if size ≤ 0 then dispatchLoop key fuel tss st hp.2
          else
            match recvn size.toNat hp.2 with
            | none => st
            | some (data, r2) =>
              if (assocLast keySIGNED hp.1).getD litZERO = litONE then
                match key, assocLast keyHMAC hp.1 with
                | some kb, some hb =>
                  match b64decode hb with
                  | none => st
                  | some tag =>
                    if hmacSHA256 kb (saveMsg filename size.toNat data) = tag then
                      dispatchLoop key fuel tss.tail
                        (applySaveEffect st (tss.headD []) filename data) r2
                    else dispatchLoop key fuel tss st r2
                | _, _ => dispatchLoop key fuel tss st r2
              else
                dispatchLoop key fuel tss.tail
                  (applySaveEffect st (tss.headD []) filename data) r2
      else if cmd = tagSTATE then
        if r.take 4 = [] then st
        else
          match recvn (beToNat (r.take 4)) (r.drop 4) with
          | none => st
          | some (data, r2) =>
            if data = [] then st
            else
              match jparse data with
              | none => dispatchLoop key fuel tss st r2
              | some j => dispatchLoop key fuel tss (applyDiffEffect st j) r2
      else st

/-! ## Host-side frame construction and broadcast (`push_save`,
`push_state_update`) -/

/-- The header lines `push_save` emits (after the `SAVE` tag line). -/
def saveHeaderLines (signed : Bool) (key : Option (List Nat)) (fn data : List Nat) :
    List (List Nat) :=
  [keyFILENAME ++ 58 :: fn,
   keySIZE ++ 58 :: decNat data.length,
   keySIGNED ++ 58 :: (if signed then litONE else litZERO)] ++
  (if signed then
    [keyHMAC ++ 58 :: b64encode (hmacSHA256 (key.getD []) (saveMsg fn data.length data))]
   else [])

/-- The complete `SAVE` frame `push_save` sends (header then raw payload).
`signingEnabled` and `key` model the `_SIGNING_ENABLED` / `_SESSION_KEY`
globals; the frame is signed iff both are present. -/
def saveFrame (signingEnabled : Bool) (key : Option (List Nat)) (fn data : List Nat) :
    List Nat :=
  tagSAVE ++ 10 ::
    (encodeLines (saveHeaderLines (signingEnabled && key.isSome) key fn data) ++ 10 :: data)

/-- The complete `STATE` frame `push_state_update` sends:
`b"STATE\n"`, a 4-byte big-endian length, then the JSON payload. -/
def stateFrame (diff : List (List Nat × JVal)) : List Nat :=
  tagSTATE ++ 10 :: (beBytes 4 (jdumps diff).length ++ jdumps diff)

/-- `push_save`'s per-peer send loop over the snapshot of `_CLIENTS`: a
failing send closes that peer and filters it out of the registry; the loop
then continues with the remaining targets.  Peers are identifiers, `fails`
says which peer's `sendall` raises, `sends` collects the deliveries that
succeeded. -/
def pushSaveLoop (fails : Nat → Bool) (frame : List Nat) :
    List Nat → List Nat → List (Nat × List Nat) → List Nat × List (Nat × List Nat)
  | [], reg, sends => (reg, sends)
  | p :: t, reg, sends =>
    if fails p then pushSaveLoop fails frame t (reg.filter (fun q => q ≠ p)) sends
    else pushSaveLoop fails frame t reg (sends ++ [(p, frame)])

/-- `push_save` broadcast over registry `reg`: final registry and the
successful deliveries. -/
def pushSaveRun (fails : Nat → Bool) (signingEnabled : Bool) (key : Option (List Nat))
    (fn data : List Nat) (reg : List Nat) : List Nat × List (Nat × List Nat) :=
  pushSaveLoop fails (saveFrame signingEnabled key fn data) reg reg []

/-- `push_state_update`'s per-peer send loop: a failing send is only
logged — the registry is left untouched — and the loop continues. -/
def pushStateLoop (fails : Nat → Bool) (frame : List Nat) :
    List Nat → List Nat → List (Nat × List Nat) → List Nat × List (Nat × List Nat)
  | [], reg, sends => (reg, sends)
  | p :: t, reg, sends =>
    if fails p then pushStateLoop fails frame t reg sends
    else pushStateLoop fails frame t reg (sends ++ [(p, frame)])

/-- `push_state_update` broadcast over registry `reg`. -/
def pushStateRun (fails : Nat → Bool) (diff : List (List Nat × JVal)) (reg : List Nat) :
    List Nat × List (Nat × List Nat) :=
  pushStateLoop fails (stateFrame diff) reg reg []

/-! ## Client handshake and receive thread (`_listen_to_host`) -/

/-- Outcome of consulting the injected password provider at the
`state_manager` boundary (§6 of the spec): `unavailable` collapses every
`return` path of the source — module import failure, a missing
`get_session_password` hook, or an exception from it — and `value p` is a
returned password string (possibly empty, which `if pwd:` treats as
absent). -/
inductive PwOutcome where
  | unavailable
  | value (p : List Nat)
deriving DecidableEq

/-- The provider actually bundled in this repository:
`state_manager.get_session_password` substitutes the default password
`"changeme"` whenever none was set, so it never reports absence. -/
def bundledProviderOutcome : PwOutcome :=
  .value [99, 104, 97, 110, 103, 101, 109, 101]

/-- Handshake reader (first `while` of `_listen_to_host`): lines until the
blank terminator; `HELLO` is skipped, `SIGNING:<v>` sets the flag to
`v == "1"`, `SALT:<b64>` stores the decoded salt (`None` on a decode
error), anything else is ignored; end of stream before the terminator
aborts (`none`). -/
def handshakeAux : Nat → Bool → Option (List Nat) → List Nat →
    Option (Bool × Option (List Nat) × List Nat)
  | 0, _, _, _ => none
  | f + 1, signing, salt, s =>
    match recvLine s with
    | none => none
    | some (l, r) =>
      if l = [] then some (signing, salt, r)
      else if l = tagHELLO then handshakeAux f signing salt r
      else if keySIGNINGc.isPrefixOf l then handshakeAux f (l.drop 8 = litONE) salt r
      else if keySALTc.isPrefixOf l then handshakeAux f signing (b64decode (l.drop 5)) r
      else handshakeAux f signing salt r

def handshakeParse (s : List Nat) : Option (Bool × Option (List Nat) × List Nat) :=
  handshakeAux (s.length + 1) false none s

/-- Result of one client receive thread: the final effect state, whether
control ever reached the frame-dispatch loop, and that the socket was
closed (the `finally` block always closes it). -/
structure ListenResult where
  final : MSt
  reachedDispatch : Bool
  socketClosed : Bool

/-- `_listen_to_host` end to end: handshake, then — when the host announced
`SIGNING:1` with a valid salt — the password flow, aborting (socket closed,
no frame processed) unless the provider yields a non-empty password, from
which the session key is derived; then the `JOIN` line (no modelled
effect) and the dispatch loop.  `key0` is the pre-existing `_SESSION_KEY`
global, which an unsigned handshake leaves in place. -/
def listenToHost (provider : PwOutcome) (key0 : Option (List Nat))
    (tss : List (List Nat)) (st : MSt) (s : List Nat) : ListenResult :=
  match handshakeParse s with
  | none => ⟨st, false, true⟩
  | some (signing, salt, rest) =>
    match signing, salt with
    | true, some sa =>
      match provider with
      | .unavailable => ⟨st, false, true⟩
      | .value p =>
        if p = [] then ⟨st, false, true⟩
        else
          ⟨dispatchLoop (some (deriveKeyFromPassword p sa)) (rest.length + 1) tss st rest,
           true, true⟩
    | _, _ => ⟨dispatchLoop key0 (rest.length + 1) tss st rest, true, true⟩

/-! ## Host session lifecycle (`stop_host`) -/

/-- The host-session globals `stop_host` touches: `_RUNNING`, `_SERVER`,
`_CLIENTS` (as peer identifiers) and `_OBSERVER`. -/
structure HostState where
  running : Bool
  serverOpen : Bool
  peers : List Nat
  watcherRunning : Bool
deriving DecidableEq

/-- The exceptions `stop_host` catches and logs (it propagates none). -/
inductive StopErr where
  | serverClose
  | watcherStop
deriving DecidableEq

/-- The server block of `stop_host` (lines 188-193):
`try: if _SERVER: _SERVER.close(); _SERVER = None  except: print(...)`.
`closeRaises` is the exception oracle for `_SERVER.close()`; when it
raises, the `except` arm logs and — crucially — `_SERVER = None` is never
reached, so the global stays set.  When no server is open the block is a
no-op. -/
def stopHostServerStep (closeRaises : Bool) (s : HostState) : HostState × List StopErr :=
  if s.serverOpen then
    if closeRaises then (s, [StopErr.serverClose])
    else ({ s with serverOpen := false }, [])
  else (s, [])

/-- The watcher block of `stop_host` (lines 207-214):
`try: if _OBSERVER: _OBSERVER.stop(); _OBSERVER.join(); _OBSERVER = None
except: print(...)`.  `watcherRaises` is the exception oracle for
`stop()`/`join()`; a caught raise leaves `_OBSERVER` set.  When no watcher
is running the block is a no-op. -/
def stopHostWatcherStep (watcherRaises : Bool) (s : HostState) : HostState × List StopErr :=
  if s.watcherRunning then
    if watcherRaises then (s, [StopErr.watcherStop])
    else ({ s with watcherRunning := false }, [])
  else (s, [])

/-- `online_manager.stop_host`, step by step:
`_RUNNING = False` unconditionally; the guarded server block; then under
the registry lock each peer socket's `shutdown`/`close` (each in its own
`except: pass`, so a failing socket affects nothing) followed by the
unconditional `_CLIENTS.clear()`; then the guarded watcher block.  The
returned list collects the errors that were caught and logged — every
fallible operation sits inside a `try/except`, so `stop_host` itself
propagates nothing. -/
def stopHost (closeRaises watcherRaises : Bool) (s : HostState) :
    HostState × List StopErr :=
  let p1 := stopHostServerStep closeRaises { s with running := false }
  let p2 := stopHostWatcherStep watcherRaises { p1.1 with peers := [] }
  (p2.1, p1.2 ++ p2.2)

/-- The terminal session state of the spec's `start→running→stopped`
lifecycle. -/
def SessionStopped (s : HostState) : Prop :=
  s.running = false ∧ s.serverOpen = false ∧ s.peers = [] ∧ s.watcherRunning = false

/-- Fidelity of the caught-exception path: when `_SERVER.close()` raises,
the `except` arm skips `_SERVER = None`, so the server global survives the
call — `stop_host` does not reach the fully stopped state on that path. -/
theorem stopHost_close_failure_keeps_server (wr : Bool) (s : HostState)
    (h : s.serverOpen = true) :
    ((stopHost true wr s).1).serverOpen = true := by
  obtain ⟨r, so, p, w⟩ := s
  subst h
  cases w <;> cases wr <;>
    simp [stopHost, stopHostServerStep, stopHostWatcherStep]

/-- Closed instance of the previous fact. -/
theorem stopHost_close_failure_keeps_server_example :
    ((stopHost true false ⟨true, true, [1], true⟩).1).serverOpen = true :=
  stopHost_close_failure_keeps_server false ⟨true, true, [1], true⟩ rfl

/-! ## Dispatch-step lemmas -/

theorem dispatch_save_nonpos (key : Option (List Nat)) (fuel : Nat)
    (tss : List (List Nat)) (st : MSt) (hs : List (List Nat)) (rest : List Nat) (z : Int)
    (hwf : WfLines hs)
    (hsize : parsePyInt ((assocLast keySIZE (parsedHeaders hs)).getD litZERO) = some z)
    (hz : z ≤ 0) :
    dispatchLoop key (fuel + 1) tss st (tagSAVE ++ 10 :: (encodeLines hs ++ 10 :: rest)) =
      dispatchLoop key fuel tss st rest := by
  have hrl := recvLine_append tagSAVE (encodeLines hs ++ 10 :: rest) (by decide)
  have hrh := readHeaders_encode hs rest hwf
  have ht1 : ¬ (tagSAVE = ([] : List Nat)) := by decide
  simp only [dispatchLoop, hrl, hrh, hsize, ht1, if_false, if_pos hz, if_true, ite_true,
    ite_false, eq_self_iff_true, if_neg ht1]

theorem dispatch_save_unsigned (key : Option (List Nat)) (fuel : Nat)
    (tss : List (List Nat)) (st : MSt) (hs : List (List Nat)) (data rest : List Nat) (z : Int)
    (hwf : WfLines hs)
    (hsize : parsePyInt ((assocLast keySIZE (parsedHeaders hs)).getD litZERO) = some z)
    (hz : 0 < z)
    (hsigned : ¬ ((assocLast keySIGNED (parsedHeaders hs)).getD litZERO = litONE))
    (hlen : data.length = z.toNat) :
    dispatchLoop key (fuel + 1) tss st
        (tagSAVE ++ 10 :: (encodeLines hs ++ 10 :: (data ++ rest))) =
      dispatchLoop key fuel tss.tail
        (applySaveEffect st (tss.headD [])
          ((assocLast keyFILENAME (parsedHeaders hs)).getD defaultSaveName) data) rest := by
  have hrl := recvLine_append tagSAVE (encodeLines hs ++ 10 :: (data ++ rest)) (by decide)
  have hrh := readHeaders_encode hs (data ++ rest) hwf
  have ht1 : ¬ (tagSAVE = ([] : List Nat)) := by decide
  have hnz : ¬ (z ≤ 0) := by omega
  have hrn : recvn z.toNat (data ++ rest) = some (data, rest) := by
    rw [← hlen]
    exact recvn_exact data rest
  simp only [dispatchLoop, hrl, hrh, hsize, ht1, hrn, if_neg hnz, if_neg hsigned,
    if_false, if_true, ite_true, ite_false, eq_self_iff_true, if_neg ht1]

theorem beBytes_length (k v : Nat) : (beBytes k v).length = k := by
  induction k generalizing v with
  | zero => rfl
  | succ k ih => simp [beBytes, ih]

theorem beToNat_beBytes4 (n : Nat) (h : n < 4294967296) :
    beToNat (beBytes 4 n) = n := by
  show beToNat (beBytes 3 (n / 256) ++ [n % 256]) = n
  show beToNat ((beBytes 2 (n / 256 / 256) ++ [n / 256 % 256]) ++ [n % 256]) = n
  show beToNat (((beBytes 1 (n / 256 / 256 / 256) ++ [n / 256 / 256 % 256]) ++
    [n / 256 % 256]) ++ [n % 256]) = n
  show beToNat ((((beBytes 0 (n / 256 / 256 / 256 / 256) ++ [n / 256 / 256 / 256 % 256]) ++
    [n / 256 / 256 % 256]) ++ [n / 256 % 256]) ++ [n % 256]) = n
  simp [beBytes, beToNat]
  omega

theorem dispatch_state_step (key : Option (List Nat)) (fuel : Nat)
    (tss : List (List Nat)) (st : MSt) (payload rest : List Nat) (j : JTop)
    (hp : jparse payload = some j)
    (hne : payload ≠ [])
    (hlen : payload.length < 4294967296) :
    dispatchLoop key (fuel + 1) tss st
        (tagSTATE ++ 10 :: (beBytes 4 payload.length ++ (payload ++ rest))) =
      dispatchLoop key fuel tss (applyDiffEffect st j) rest := by
  have hrl := recvLine_append tagSTATE (beBytes 4 payload.length ++ (payload ++ rest))
    (by decide)
  have ht1 : ¬ (tagSTATE = ([] : List Nat)) := by decide
  have ht2 : ¬ (tagSTATE = tagSAVE) := by decide
  have hbl : (beBytes 4 payload.length).length = 4 := beBytes_length 4 payload.length
  have htk : (beBytes 4 payload.length ++ (payload ++ rest)).take 4 =
      beBytes 4 payload.length := by
    rw [← hbl]
    exact take_append_length _ _
  have htkne : (beBytes 4 payload.length ++ (payload ++ rest)).take 4 ≠ [] := by
    rw [htk]
    intro hc
    have := congrArg List.length hc
    rw [hbl] at this
    simp at this
  have hdp : (beBytes 4 payload.length ++ (payload ++ rest)).drop 4 = payload ++ rest := by
    rw [← hbl]
    exact drop_append_length _ _
  have hbv : beToNat ((beBytes 4 payload.length ++ (payload ++ rest)).take 4) =
      payload.length := by
    rw [htk]
    exact beToNat_beBytes4 payload.length hlen
  have hrn : recvn (beToNat ((beBytes 4 payload.length ++ (payload ++ rest)).take 4))
      ((beBytes 4 payload.length ++ (payload ++ rest)).drop 4) = some (payload, rest) := by
    rw [hbv, hdp]
    exact recvn_exact payload rest
  simp only [dispatchLoop, hrl, ht1, ht2, hrn, htkne, hp, hne, if_false, if_true,
    ite_true, ite_false, eq_self_iff_true, if_neg ht1, if_neg ht2, if_neg htkne, if_neg hne]

/-! ## Header facts for frames built by `push_save` -/

theorem parseHeaderLine_split (k v : List Nat) (hk : (58 : Nat) ∉ k) :
    parseHeaderLine (k ++ 58 :: v) = some (upperB (stripB k), stripB v) := by
  simp [parseHeaderLine, splitAtFirst_append 58 k v hk]

theorem stripB_decNat (n : Nat) : stripB (decNat n) = decNat n := by
  apply stripB_of_no_ws
  intro x hx
  have := decNat_all_digits n x hx
  simp [isWS]
  omega

theorem parsedHeaders_unsigned (key : Option (List Nat)) (fn d : List Nat)
    (hfn : stripB fn = fn) :
    parsedHeaders (saveHeaderLines false key fn d) =
      [(keyFILENAME, fn), (keySIZE, decNat d.length), (keySIGNED, litZERO)] := by
  have h1 : parseHeaderLine (keyFILENAME ++ 58 :: fn) = some (keyFILENAME, fn) := by
    rw [parseHeaderLine_split _ _ (by decide), hfn]
    rw [show upperB (stripB keyFILENAME) = keyFILENAME from by decide]
  have h2 : parseHeaderLine (keySIZE ++ 58 :: decNat d.length) =
      some (keySIZE, decNat d.length) := by
    rw [parseHeaderLine_split _ _ (by decide), stripB_decNat]
    rw [show upperB (stripB keySIZE) = keySIZE from by decide]
  have h3 : parseHeaderLine (keySIGNED ++ 58 :: litZERO) = some (keySIGNED, litZERO) := by
    decide
  simp [parsedHeaders, saveHeaderLines, h1, h2, h3]

theorem wfLines_unsigned (key : Option (List Nat)) (fn d : List Nat) (h10 : (10 : Nat) ∉ fn) :
    WfLines (saveHeaderLines false key fn d) := by
  intro l hl
  simp [saveHeaderLines] at hl
  rcases hl with hl | hl | hl <;> subst hl
  · refine ⟨by simp [keyFILENAME], ?_⟩
    intro hm
    simp [keyFILENAME] at hm
    exact h10 hm
  · refine ⟨by simp [keySIZE], ?_⟩
    intro hm
    simp [keySIZE] at hm
    exact newline_not_mem_decNat d.length hm
  · exact ⟨by simp [keySIGNED], by decide⟩

theorem assocLast_unsigned_SIZE (fn d0 : List Nat) (n : Nat) :
    assocLast keySIZE [(keyFILENAME, fn), (keySIZE, decNat n), (keySIGNED, d0)] =
      some (decNat n) := by
  simp [assocLast, show ¬ (keySIGNED = keySIZE) from by decide]

theorem assocLast_unsigned_FILENAME (fn d0 : List Nat) (n : Nat) :
    assocLast keyFILENAME [(keyFILENAME, fn), (keySIZE, decNat n), (keySIGNED, d0)] =
      some fn := by
  simp [assocLast, show ¬ (keySIGNED = keyFILENAME) from by decide,
    show ¬ (keySIZE = keyFILENAME) from by decide]

theorem assocLast_unsigned_SIGNED (fn v : List Nat) (n : Nat) :
    assocLast keySIGNED [(keyFILENAME, fn), (keySIZE, decNat n), (keySIGNED, v)] =
      some v := by
  simp [assocLast]

/-! ## Filesystem lookup helpers -/

theorem fsSet_same (fs : FS) (n d : List Nat) : fsSet fs n d n = some d := by
  simp [fsSet]

theorem fsSet_other (fs : FS) (n d m : List Nat) (h : m ≠ n) : fsSet fs n d m = fs m := by
  simp [fsSet, h]

theorem fsRemove_other (fs : FS) (n m : List Nat) (h : m ≠ n) : fsRemove fs n m = fs m := by
  simp [fsRemove, h]

theorem backupName_ne (fn ts : List Nat) : backupName fn ts ≠ fn := by
  intro h
  have := congrArg List.length h
  simp [backupName, suffixBak] at this

/-- `saveFrame` followed by more stream bytes, in the shape the dispatch
step lemmas consume. -/
theorem saveFrame_append (sg : Bool) (key : Option (List Nat)) (fn d x : List Nat) :
    saveFrame sg key fn d ++ x =
      tagSAVE ++ 10 ::
        (encodeLines (saveHeaderLines (sg && key.isSome) key fn d) ++ 10 :: (d ++ x)) := by
  simp [saveFrame, List.append_assoc]

/-- The net effect of `applySaveEffect` on a resolved save directory holding
no prior file of that name: the file is created, nothing else changes. -/
theorem applySaveEffect_fresh (st : MSt) (ts fn d : List Nat)
    (hok : st.saveDirOk = true) (hnone : st.saveDir fn = none) :
    (applySaveEffect st ts fn d).saveDir = fsSet st.saveDir fn d ∧
    (applySaveEffect st ts fn d).saveDirOk = true ∧
    (applySaveEffect st ts fn d).diffs = st.diffs := by
  simp [applySaveEffect, hok, hnone]

/-- The net effect of `applySaveEffect` when a file of that name already
exists: it is renamed to the timestamped backup first, then overwritten. -/
theorem applySaveEffect_backup (st : MSt) (ts fn d old : List Nat)
    (hok : st.saveDirOk = true) (hsome : st.saveDir fn = some old) :
    (applySaveEffect st ts fn d).saveDir =
      fsSet (fsSet (fsRemove st.saveDir fn) (backupName fn ts) old) fn d ∧
    (applySaveEffect st ts fn d).saveDirOk = true := by
  simp [applySaveEffect, hok, hsome]

/-! ## Broadcast characterizations -/

theorem pushSaveLoop_spec (fails : Nat → Bool) (frame : List Nat) (p : Nat) :
    ∀ (t reg : List Nat) (sends : List (Nat × List Nat)),
    (∀ q ∈ t, fails q = true ↔ q = p) →
    pushSaveLoop fails frame t reg sends =
      (if p ∈ t then reg.filter (fun q => q ≠ p) else reg,
       sends ++ (t.filter (fun q => q ≠ p)).map (fun q => (q, frame))) := by
  intro t
  induction t with
  | nil => intro reg sends _; simp [pushSaveLoop]
  | cons q t ih =>
    intro reg sends h
    have hq := h q (List.mem_cons_self q t)
    have ht : ∀ x ∈ t, fails x = true ↔ x = p :=
      fun x hx => h x (List.mem_cons_of_mem q hx)
    by_cases hqp : q = p
    · subst hqp
      have hfq : fails q = true := hq.mpr rfl
      simp only [pushSaveLoop, hfq, if_true]
      rw [ih _ _ ht]
      by_cases hpt : q ∈ t
      · simp [hpt, filter_ne_idem, List.filter_cons]
      · simp [hpt, List.filter_cons]
    · have hfq : fails q = false := by
        cases hfqb : fails q
        · rfl
        · exact absurd (hq.mp hfqb) hqp
      simp only [pushSaveLoop, hfq, Bool.false_eq_true, if_false]
      rw [ih _ _ ht]
      have hqp2 : ¬ (p = q) := fun hc => hqp hc.symm
      by_cases hpt : p ∈ t
      · simp [hpt, hqp, hqp2, List.filter_cons, List.mem_cons]
      · simp [hpt, hqp, hqp2, List.filter_cons, List.mem_cons]

theorem pushStateLoop_spec (fails : Nat → Bool) (frame : List Nat) (p : Nat) :
    ∀ (t reg : List Nat) (sends : List (Nat × List Nat)),
    (∀ q ∈ t, fails q = true ↔ q = p) →
    pushStateLoop fails frame t reg sends =
      (reg, sends ++ (t.filter (fun q => q ≠ p)).map (fun q => (q, frame))) := by
  intro t
  induction t with
  | nil => intro reg sends _; simp [pushStateLoop]
  | cons q t ih =>
    intro reg sends h
    have hq := h q (List.mem_cons_self q t)
    have ht : ∀ x ∈ t, fails x = true ↔ x = p :=
      fun x hx => h x (List.mem_cons_of_mem q hx)
    by_cases hqp : q = p
    · subst hqp
      have hfq : fails q = true := hq.mpr rfl
      simp only [pushStateLoop, hfq, if_true]
      rw [ih _ _ ht]
      simp [List.filter_cons]
    · have hfq : fails q = false := by
        cases hfqb : fails q
        · rfl
        · exact absurd (hq.mp hfqb) hqp
      simp only [pushStateLoop, hfq, Bool.false_eq_true, if_false]
      rw [ih _ _ ht]
      simp [hqp, List.filter_cons]

/-! ## Claim theorems -/

/-- Claim C9: `stopHost` is idempotent.  On the normal execution (neither
`_SERVER.close()` nor the watcher stop raises) one call from any state
reaches the stopped state — running flag cleared, listening socket closed,
peer registry emptied, save watcher stopped if it was running — with
nothing even logged; and a repeated call from any stopped state, under
**any** exception oracle, returns that state unchanged and catches no
error: both fallible conditionals (`if _SERVER:`, `if _OBSERVER:`) are
skipped and the peer loop is empty, so nothing can raise on the second
call, caught or otherwise. -/
theorem claim_C9_stopHost_idempotent (s : HostState) (cr wr : Bool) :
    SessionStopped (stopHost false false s).1 ∧
    (stopHost false false s).2 = [] ∧
    (∀ t, SessionStopped t → stopHost cr wr t = (t, [])) := by
  refine ⟨?_, ?_, ?_⟩
  · obtain ⟨r, so, p, w⟩ := s
    cases so <;> cases w <;>
      simp [stopHost, stopHostServerStep, stopHostWatcherStep, SessionStopped]
  · obtain ⟨r, so, p, w⟩ := s
    cases so <;> cases w <;>
      simp [stopHost, stopHostServerStep, stopHostWatcherStep]
  · intro t ht
    obtain ⟨r, so, p, w⟩ := t
    obtain ⟨hr, hso, hp, hw⟩ := ht
    subst hr
    subst hso
    subst hp
    subst hw
    simp [stopHost, stopHostServerStep, stopHostWatcherStep]

/-- Witness for C9: from a fully live session the exception-free call
reaches the stopped state, and a second call — even with both oracles set
to raise — leaves the stopped state untouched and catches nothing. -/
theorem claim_C9_witness :
    SessionStopped (stopHost false false ⟨true, true, [1, 2], true⟩).1 ∧
    SessionStopped (⟨false, false, [], false⟩ : HostState) ∧
    stopHost true true ⟨false, false, [], false⟩ = (⟨false, false, [], false⟩, []) :=
  ⟨(claim_C9_stopHost_idempotent ⟨true, true, [1, 2], true⟩ true true).1,
   ⟨rfl, rfl, rfl, rfl⟩,
   (claim_C9_stopHost_idempotent ⟨true, true, [1, 2], true⟩ true true).2.2
     ⟨false, false, [], false⟩ ⟨rfl, rfl, rfl, rfl⟩⟩

/-- `isinstance(diff, dict)` as checked by `apply_state_diff`. -/
def isMapping : JTop → Bool
  | .jobj _ => true
  | _ => false

/-- Claim C8: a non-mapping argument to `applyStateDiff` leaves the cache
exactly as it was and never reaches the UI-callback path — logged and
ignored, no partial merge. -/
theorem claim_C8_applyStateDiff_rejects_nonmapping (j : JTop) (c : Cache)
    (h : isMapping j = false) : applyStateDiff j c = (c, false) := by
  cases j with
  | jobj e => simp [isMapping] at h
  | jarr e => rfl
  | jprim v => rfl

/-- Witness for C8 at a concrete non-mapping input (the JSON document `5`). -/
theorem claim_C8_witness :
    isMapping (.jprim (.jint 5)) = false ∧
    applyStateDiff (.jprim (.jint 5)) emptyCache = (emptyCache, false) :=
  ⟨by decide, claim_C8_applyStateDiff_rejects_nonmapping (.jprim (.jint 5)) emptyCache
    (by decide)⟩

/-- The cache after `applyStateDiff({a:1})` from an empty cache
(keys as UTF-8 bytes, `a = [97]`). -/
def c6Cache1 : Cache := (applyStateDiff (.jobj [([97], .jint 1)]) emptyCache).1

/-- … then `applyStateDiff({b:2})` (`b = [98]`). -/
def c6Cache2 : Cache := (applyStateDiff (.jobj [([98], .jint 2)]) c6Cache1).1

/-- … then `applyStateDiff({a:3})`. -/
def c6Cache3 : Cache := (applyStateDiff (.jobj [([97], .jint 3)]) c6Cache2).1

/-- Claim C6: `applyStateDiff` merges last-writer-wins per key — in general
a key bound by the diff takes the diff's (latest) value and every other key
keeps its previous value, and concretely `{a:1}` then `{b:2}` yields
`{a:1,b:2}` and a subsequent `{a:3}` yields `{a:3,b:2}`. -/
theorem claim_C6_applyStateDiff_lww :
    (∀ (entries : List (List Nat × JVal)) (c : Cache) (q : List Nat),
       (applyStateDiff (.jobj entries) c).1 q = (assocLast q entries).elim (c q) some) ∧
    (∀ q : List Nat,
       (c6Cache2 q =
         if q = [97] then some (.jint 1) else if q = [98] then some (.jint 2) else none) ∧
       (c6Cache3 q =
         if q = [97] then some (.jint 3) else if q = [98] then some (.jint 2) else none)) := by
  constructor
  · intro e c q
    exact cacheUpdate_lookup e c q
  · intro q
    constructor
    · show cacheUpdate (cacheUpdate emptyCache _) _ q = _
      rw [cacheUpdate_lookup, cacheUpdate_lookup]
      by_cases h97 : q = [97]
      · subst h97
        simp [assocLast, emptyCache]
      · by_cases h98 : q = [98]
        · subst h98
          simp [assocLast, emptyCache]
        · have h97b : ¬ (([97] : List Nat) = q) := fun hc => h97 hc.symm
          have h98b : ¬ (([98] : List Nat) = q) := fun hc => h98 hc.symm
          simp [assocLast, emptyCache, h97, h98, h97b, h98b]
    · show cacheUpdate (cacheUpdate (cacheUpdate emptyCache _) _) _ q = _
      rw [cacheUpdate_lookup, cacheUpdate_lookup, cacheUpdate_lookup]
      by_cases h97 : q = [97]
      · subst h97
        simp [assocLast, emptyCache]
      · by_cases h98 : q = [98]
        · subst h98
          simp [assocLast, emptyCache]
        · have h97b : ¬ (([97] : List Nat) = q) := fun hc => h97 hc.symm
          have h98b : ¬ (([98] : List Nat) = q) := fun hc => h98 hc.symm
          simp [assocLast, emptyCache, h97, h98, h97b, h98b]

/-- Counterexample to claim C3 as stated: in a two-peer registry `[1, 2]`
where sending to peer `1` fails, `push_state_update` does **not** remove the
failing peer — the final registry still holds both peers (the source only
logs the error) — although the frame does still reach peer `2`. -/
theorem claim_C3_counterexample :
    (fun q => q == 1) 1 = true ∧
    (pushStateRun (fun q => q == 1) [] [1, 2]).1 = [1, 2] ∧
    (pushStateRun (fun q => q == 1) [] [1, 2]).2 = [(2, stateFrame [])] := by
  refine ⟨rfl, ?_, ?_⟩ <;> rfl

/-- Claim C3 (amended): over a registry of two or more peers with exactly
one failing peer, `push_save` removes that peer (and only that peer) from
the registry and still delivers the frame to every remaining peer, while
`push_state_update` merely logs the failure — the registry is left
unchanged — and still delivers the frame to every remaining peer. -/
theorem claim_C3_broadcast_failure_handling
    (fails : Nat → Bool) (reg : List Nat) (p : Nat) (sg : Bool)
    (key : Option (List Nat)) (fn data : List Nat) (diff : List (List Nat × JVal))
    (hone : ∀ q ∈ reg, fails q = true ↔ q = p)
    (hmem : p ∈ reg) (htwo : 2 ≤ reg.length) :
    pushSaveRun fails sg key fn data reg =
      (reg.filter (fun q => q ≠ p),
       (reg.filter (fun q => q ≠ p)).map (fun q => (q, saveFrame sg key fn data))) ∧
    pushStateRun fails diff reg =
      (reg, (reg.filter (fun q => q ≠ p)).map (fun q => (q, stateFrame diff))) := by
  constructor
  · unfold pushSaveRun
    rw [pushSaveLoop_spec fails _ p reg reg [] hone]
    simp [hmem]
  · unfold pushStateRun
    rw [pushStateLoop_spec fails _ p reg reg [] hone]
    simp

/-- Witness for the amended C3 at the registry `[1, 2]` with peer `1`
failing: `push_save` ends with registry `[2]` and delivers to `2`;
`push_state_update` ends with registry `[1, 2]` and delivers to `2`. -/
theorem claim_C3_witness :
    (∀ q ∈ ([1, 2] : List Nat), (fun x => x == 1) q = true ↔ q = 1) ∧
    (1 ∈ ([1, 2] : List Nat)) ∧ 2 ≤ ([1, 2] : List Nat).length ∧
    (pushSaveRun (fun x => x == 1) false none [102] [7] [1, 2] =
      ([2], [(2, saveFrame false none [102] [7])]) ∧
     pushStateRun (fun x => x == 1) [] [1, 2] =
      ([1, 2], [(2, stateFrame [])])) := by
  refine ⟨by decide, by decide, by decide, ?_⟩
  have h := claim_C3_broadcast_failure_handling (fun x => x == 1) [1, 2] 1 false none
    [102] [7] [] (by decide) (by decide) (by decide)
  simpa using h

/-- A concrete effect state for witnesses: empty inbox, resolved save
directory with no files, empty cache. -/
def exSt : MSt := ⟨fsEmpty, true, fsEmpty, [], emptyCache, 0⟩

/-- Claim C4: a `SAVE` frame whose header block parses to a `SIZE` value
`z ≤ 0` is rejected before any payload byte is read: the effect state is
returned unchanged (no file written, nothing applied) and the loop
continues directly on the bytes following the header terminator — the
equation shows the remaining stream is handed to the next iteration intact,
so the connection is not left blocked on a payload read. -/
theorem claim_C4_save_nonpositive_size_rejected (key : Option (List Nat)) (fuel : Nat)
    (tss : List (List Nat)) (st : MSt) (hs : List (List Nat)) (rest : List Nat) (z : Int)
    (hwf : WfLines hs)
    (hsize : parsePyInt ((assocLast keySIZE (parsedHeaders hs)).getD litZERO) = some z)
    (hz : z ≤ 0) :
    dispatchLoop key (fuel + 1) tss st (tagSAVE ++ 10 :: (encodeLines hs ++ 10 :: rest)) =
      dispatchLoop key fuel tss st rest :=
  dispatch_save_nonpos key fuel tss st hs rest z hwf hsize hz

/-- Witness for C4: the frame `SAVE\n\n` (no header lines, so `SIZE`
defaults to `"0"`) is rejected and the loop continues with an untouched
state. -/
theorem claim_C4_witness :
    WfLines [] ∧
    parsePyInt ((assocLast keySIZE (parsedHeaders [])).getD litZERO) = some 0 ∧
    ((0 : Int) ≤ 0) ∧
    dispatchLoop none 1 [] exSt (tagSAVE ++ 10 :: (encodeLines [] ++ 10 :: [])) =
      dispatchLoop none 0 [] exSt [] :=
  ⟨by decide, by decide, by decide,
   claim_C4_save_nonpositive_size_rejected none 0 [] exSt [] [] 0
     (by decide) (by decide) (by decide)⟩

/-- Claim C10: a `SAVE` frame whose header block has no `FILENAME` line is
not rejected — with a positive declared size the payload is accepted and
written (to the inbox and, when the save directory resolves, there as well)
under the default name `received.z2s`; a missing `SIGNED` line likewise
defaults to `"0"`, the unsigned path. -/
theorem claim_C10_missing_filename_defaults (key : Option (List Nat)) (fuel : Nat)
    (tss : List (List Nat)) (st : MSt) (hs : List (List Nat)) (data rest : List Nat) (z : Int)
    (hwf : WfLines hs)
    (hnofn : assocLast keyFILENAME (parsedHeaders hs) = none)
    (hnosigned : assocLast keySIGNED (parsedHeaders hs) = none)
    (hsize : parsePyInt ((assocLast keySIZE (parsedHeaders hs)).getD litZERO) = some z)
    (hz : 0 < z) (hlen : data.length = z.toNat) :
    dispatchLoop key (fuel + 1) tss st
        (tagSAVE ++ 10 :: (encodeLines hs ++ 10 :: (data ++ rest))) =
      dispatchLoop key fuel tss.tail
        (applySaveEffect st (tss.headD []) defaultSaveName data) rest ∧
    (applySaveEffect st (tss.headD []) defaultSaveName data).incoming defaultSaveName =
      some data ∧
    (st.saveDirOk = true →
      (applySaveEffect st (tss.headD []) defaultSaveName data).saveDir defaultSaveName =
        some data) := by
  have hsigned : ¬ ((assocLast keySIGNED (parsedHeaders hs)).getD litZERO = litONE) := by
    rw [hnosigned]
    decide
  have hstep := dispatch_save_unsigned key fuel tss st hs data rest z hwf hsize hz
    hsigned hlen
  rw [hnofn] at hstep
  refine ⟨hstep, ?_, ?_⟩
  · cases hok : st.saveDirOk <;> simp [applySaveEffect, hok, fsSet]
  · intro hok
    cases hcur : st.saveDir defaultSaveName <;> simp [applySaveEffect, hok, hcur, fsSet]

/-- Witness for C10: the frame `SAVE\nSIZE:1\n\n` followed by one payload
byte is written under `received.z2s`. -/
theorem claim_C10_witness :
    WfLines [keySIZE ++ 58 :: litONE] ∧
    assocLast keyFILENAME (parsedHeaders [keySIZE ++ 58 :: litONE]) = none ∧
    assocLast keySIGNED (parsedHeaders [keySIZE ++ 58 :: litONE]) = none ∧
    parsePyInt ((assocLast keySIZE (parsedHeaders [keySIZE ++ 58 :: litONE])).getD litZERO)
      = some 1 ∧
    (0 : Int) < 1 ∧ ([7] : List Nat).length = (1 : Int).toNat ∧
    (dispatchLoop none 1 [] exSt
        (tagSAVE ++ 10 :: (encodeLines [keySIZE ++ 58 :: litONE] ++ 10 :: ([7] ++ []))) =
      dispatchLoop none 0 [] (applySaveEffect exSt [] defaultSaveName [7]) [] ∧
     (applySaveEffect exSt [] defaultSaveName [7]).incoming defaultSaveName = some [7] ∧
     (exSt.saveDirOk = true →
       (applySaveEffect exSt [] defaultSaveName [7]).saveDir defaultSaveName = some [7])) := by
  refine ⟨by decide, by decide, by decide, by decide, by decide, by decide, ?_⟩
  have h := claim_C10_missing_filename_defaults none 0 [] exSt [keySIZE ++ 58 :: litONE]
    [7] [] 1 (by decide) (by decide) (by decide) (by decide) (by decide) (by decide)
  simpa using h

theorem saveFrame_false_append (key : Option (List Nat)) (fn d x : List Nat) :
    saveFrame false key fn d ++ x =
      tagSAVE ++ 10 :: (encodeLines (saveHeaderLines false key fn d) ++ 10 :: (d ++ x)) := by
  rw [saveFrame_append]
  simp

/-- One unsigned `push_save` frame processed by the client, specialised to
the frame shape `push_save` emits. -/
theorem dispatch_pushSave_frame (key : Option (List Nat)) (fuel : Nat)
    (tss : List (List Nat)) (st : MSt) (fn d x : List Nat)
    (h10 : (10 : Nat) ∉ fn) (hstrip : stripB fn = fn) (hd : d ≠ []) :
    dispatchLoop key (fuel + 1) tss st (saveFrame false key fn d ++ x) =
      dispatchLoop key fuel tss.tail (applySaveEffect st (tss.headD []) fn d) x := by
  have hph := parsedHeaders_unsigned key fn d hstrip
  have hsize : parsePyInt ((assocLast keySIZE
      (parsedHeaders (saveHeaderLines false key fn d))).getD litZERO) =
      some (d.length : Int) := by
    rw [hph, assocLast_unsigned_SIZE]
    simp [parsePyInt_decNat]
  have hz : (0 : Int) < (d.length : Int) := by
    have := List.length_pos.mpr hd
    exact_mod_cast this
  have hsigned : ¬ ((assocLast keySIGNED
      (parsedHeaders (saveHeaderLines false key fn d))).getD litZERO = litONE) := by
    rw [hph, assocLast_unsigned_SIGNED]
    decide
  have hlen : d.length = ((d.length : Int)).toNat := by simp
  have hstep := dispatch_save_unsigned key fuel tss st (saveHeaderLines false key fn d)
    d x (d.length : Int) (wfLines_unsigned key fn d h10) hsize hz hsigned hlen
  rw [saveFrame_false_append]
  rw [hstep, hph, assocLast_unsigned_FILENAME]
  rfl

/-- Claim C5: with the save directory resolved and initially holding neither
`fn` nor the eventual backup name, receiving two `SAVE` frames for the same
filename in sequence leaves the second frame's bytes under `fn`, exactly one
timestamped backup (named with the second application's timestamp) holding
the first frame's bytes, and every other name in the directory untouched —
no data loss. -/
theorem claim_C5_sequential_saves_backup (key : Option (List Nat)) (fuel : Nat)
    (ts1 ts2 : List Nat) (tssRest : List (List Nat)) (st : MSt)
    (fn d1 d2 rest : List Nat)
    (h10 : (10 : Nat) ∉ fn) (hstrip : stripB fn = fn)
    (hok : st.saveDirOk = true) (hfresh : st.saveDir fn = none)
    (hd1 : d1 ≠ []) (hd2 : d2 ≠ []) :
    dispatchLoop key (fuel + 2) (ts1 :: ts2 :: tssRest) st
        (saveFrame false key fn d1 ++ (saveFrame false key fn d2 ++ rest)) =
      dispatchLoop key fuel tssRest
        (applySaveEffect (applySaveEffect st ts1 fn d1) ts2 fn d2) rest ∧
    (applySaveEffect (applySaveEffect st ts1 fn d1) ts2 fn d2).saveDir fn = some d2 ∧
    (applySaveEffect (applySaveEffect st ts1 fn d1) ts2 fn d2).saveDir (backupName fn ts2)
      = some d1 ∧
    (∀ q, q ≠ fn → q ≠ backupName fn ts2 →
      (applySaveEffect (applySaveEffect st ts1 fn d1) ts2 fn d2).saveDir q =
        st.saveDir q) := by
  have hstep1 := dispatch_pushSave_frame key (fuel + 1) (ts1 :: ts2 :: tssRest) st fn d1
    (saveFrame false key fn d2 ++ rest) h10 hstrip hd1
  have hfr1 := applySaveEffect_fresh st ts1 fn d1 hok hfresh
  have hsd1 : (applySaveEffect st ts1 fn d1).saveDir fn = some d1 := by
    rw [hfr1.1]
    exact fsSet_same _ _ _
  have hbk := applySaveEffect_backup (applySaveEffect st ts1 fn d1) ts2 fn d2 d1
    hfr1.2.1 hsd1
  have hstep2 := dispatch_pushSave_frame key fuel (ts2 :: tssRest)
    (applySaveEffect st ts1 fn d1) fn d2 rest h10 hstrip hd2
  refine ⟨?_, ?_, ?_, ?_⟩
  · exact hstep1.trans hstep2
  · rw [hbk.1]
    exact fsSet_same _ _ _
  · rw [hbk.1, fsSet_other _ _ _ _ (backupName_ne fn ts2), fsSet_same]
  · intro q hqfn hqbak
    rw [hbk.1, fsSet_other _ _ _ _ hqfn, fsSet_other _ _ _ _ hqbak,
      fsRemove_other _ _ _ hqfn, hfr1.1, fsSet_other _ _ _ _ hqfn]

/-- Witness for C5: filename `"f"`, contents `[1]` then `[2]`, timestamps
`"A"` and `"B"`, starting from an empty save directory. -/
theorem claim_C5_witness :
    ((10 : Nat) ∉ ([102] : List Nat)) ∧ stripB [102] = [102] ∧
    exSt.saveDirOk = true ∧ exSt.saveDir [102] = none ∧
    (([1] : List Nat) ≠ []) ∧ (([2] : List Nat) ≠ []) ∧
    (dispatchLoop none 2 [[65], [66]] exSt
        (saveFrame false none [102] [1] ++ (saveFrame false none [102] [2] ++ [])) =
      dispatchLoop none 0 []
        (applySaveEffect (applySaveEffect exSt [65] [102] [1]) [66] [102] [2]) [] ∧
     (applySaveEffect (applySaveEffect exSt [65] [102] [1]) [66] [102] [2]).saveDir [102]
       = some [2] ∧
     (applySaveEffect (applySaveEffect exSt [65] [102] [1]) [66] [102] [2]).saveDir
        (backupName [102] [66]) = some [1] ∧
     (∀ q, q ≠ [102] → q ≠ backupName [102] [66] →
       (applySaveEffect (applySaveEffect exSt [65] [102] [1]) [66] [102] [2]).saveDir q =
         exSt.saveDir q)) :=
  ⟨by decide, by decide, by decide, by decide, by decide, by decide,
   claim_C5_sequential_saves_backup none 0 [65] [66] [] exSt [102] [1] [2] []
     (by decide) (by decide) (by decide) (by decide) (by decide) (by decide)⟩

/-- Claim C7: a `STATE` frame as built by `push_state_update` is consumed by
reading exactly the 4-byte big-endian length prefix and exactly that many
payload bytes (the equation hands the following stream bytes to the next
iteration untouched), the payload parses back to the flat mapping that was
encoded, and that mapping is forwarded unchanged to the state store's
diff-merge entry point, whose cache then reflects the merge. -/
theorem claim_C7_state_frame_roundtrip (key : Option (List Nat)) (fuel : Nat)
    (tss : List (List Nat)) (st : MSt) (diff : List (List Nat × JVal)) (rest : List Nat)
    (hok : entriesOk diff = true)
    (hnodup : (diff.map Prod.fst).Nodup)
    (hlen : (jdumps diff).length < 4294967296) :
    dispatchLoop key (fuel + 1) tss st (stateFrame diff ++ rest) =
      dispatchLoop key fuel tss (applyDiffEffect st (.jobj diff)) rest ∧
    (applyDiffEffect st (.jobj diff)).diffs = st.diffs ++ [.jobj diff] ∧
    ∀ q, (applyDiffEffect st (.jobj diff)).cache q =
      (assocLast q diff).elim (st.cache q) some := by
  have hjp := jparse_jdumps diff hok
  have hne : jdumps diff ≠ [] := by simp [jdumps]
  have hfr : stateFrame diff ++ rest =
      tagSTATE ++ 10 :: (beBytes 4 (jdumps diff).length ++ (jdumps diff ++ rest)) := by
    simp [stateFrame, List.append_assoc]
  have hstep := dispatch_state_step key fuel tss st (jdumps diff) rest (.jobj diff)
    hjp hne hlen
  refine ⟨by rw [hfr]; exact hstep, ?_, ?_⟩
  · simp [applyDiffEffect]
  · intro q
    show cacheUpdate st.cache diff q = _
    exact cacheUpdate_lookup diff st.cache q

/-- Witness for C7 at the diff `{a: 1}`. -/
theorem claim_C7_witness :
    entriesOk [([97], JVal.jint 1)] = true ∧
    (([([97], JVal.jint 1)].map Prod.fst).Nodup) ∧
    (jdumps [([97], JVal.jint 1)]).length < 4294967296 ∧
    (dispatchLoop none 1 [] exSt (stateFrame [([97], JVal.jint 1)] ++ []) =
      dispatchLoop none 0 [] (applyDiffEffect exSt (.jobj [([97], JVal.jint 1)])) [] ∧
     (applyDiffEffect exSt (.jobj [([97], JVal.jint 1)])).diffs =
       exSt.diffs ++ [.jobj [([97], JVal.jint 1)]] ∧
     ∀ q, (applyDiffEffect exSt (.jobj [([97], JVal.jint 1)])).cache q =
       (assocLast q [([97], JVal.jint 1)]).elim (exSt.cache q) some) :=
  ⟨by decide, by decide, by decide,
   claim_C7_state_frame_roundtrip none 0 [] exSt [([97], JVal.jint 1)] []
     (by decide) (by decide) (by decide)⟩

/-- Claim C2: when the Hello handshake announces `SIGNING:1` with a valid
salt and the injected password provider yields no usable password (absent
provider/hook/exception, or an empty password string), the join aborts:
the socket is closed, the dispatch loop is never entered (so no `SAVE`,
`STATE` or `TEXT` frame is ever processed), and the effect state — both
directories, the forwarded diffs, the cache — is returned exactly as it
was, i.e. no file is ever written. -/
theorem claim_C2_signed_join_without_password_aborts (provider : PwOutcome)
    (key0 : Option (List Nat)) (tss : List (List Nat)) (st : MSt) (s sa rest : List Nat)
    (hhs : handshakeParse s = some (true, some sa, rest))
    (hprov : provider = PwOutcome.unavailable ∨ provider = PwOutcome.value []) :
    listenToHost provider key0 tss st s = ⟨st, false, true⟩ := by
  rcases hprov with hp | hp <;> subst hp <;> simp [listenToHost, hhs]

/-- A concrete signed handshake: `HELLO`, `SIGNING:1`, `SALT:AAAA`, blank
terminator. -/
def exSignedHandshake : List Nat :=
  tagHELLO ++ 10 :: (keySIGNINGc ++ 49 :: 10 :: (keySALTc ++ [65, 65, 65, 65] ++ 10 :: [10]))

/-- Witness for C2: on the concrete signed handshake with an unavailable
provider, the join aborts with the state untouched. -/
theorem claim_C2_witness :
    handshakeParse exSignedHandshake = some (true, some [0, 0, 0], []) ∧
    listenToHost PwOutcome.unavailable none [] exSt exSignedHandshake =
      ⟨exSt, false, true⟩ :=
  ⟨by decide,
   claim_C2_signed_join_without_password_aborts PwOutcome.unavailable none [] exSt
     exSignedHandshake [0, 0, 0] [] (by decide) (Or.inl rfl)⟩

/-! ## HMAC integrity (claim C1) -/

/-- A collision of HMAC-SHA256 under a fixed key: two distinct messages
carrying the same tag. -/
def HmacCollision (key : List Nat) : Prop :=
  ∃ m1 m2 : List Nat, m1 ≠ m2 ∧ hmacSHA256 key m1 = hmacSHA256 key m2

/-- The tag the sender attaches (`push_save`, lines 484-492):
`HMAC-SHA256(key, filename + "\n" + str(len(data)) + "\n" + data)`. -/
def signSaveTag (key fn data : List Nat) : List Nat :=
  hmacSHA256 key (saveMsg fn data.length data)

/-- The client's verification (`_listen_to_host`, lines 358-364):
recompute the tag over the received filename, declared size and payload and
compare (`hmac.compare_digest`, modelled as equality — the constant-time
property is a timing concern outside a functional model). -/
def verifySaveTag (key fn : List Nat) (n : Nat) (data tag : List Nat) : Bool :=
  hmacSHA256 key (saveMsg fn n data) == tag

/-- The HMAC input determines the fields: for newline-free filenames the
encoding `fn ++ "\n" ++ decimal size ++ "\n" ++ data` is injective. -/
theorem saveMsg_inj (fn : List Nat) (n : Nat) (d fn2 : List Nat) (n2 : Nat) (d2 : List Nat)
    (hf : (10 : Nat) ∉ fn) (hf2 : (10 : Nat) ∉ fn2)
    (h : saveMsg fn2 n2 d2 = saveMsg fn n d) : fn2 = fn ∧ n2 = n ∧ d2 = d := by
  have h1 := congrArg (splitAtFirst 10) h
  rw [show saveMsg fn2 n2 d2 = fn2 ++ 10 :: (decNat n2 ++ 10 :: d2) from rfl,
      show saveMsg fn n d = fn ++ 10 :: (decNat n ++ 10 :: d) from rfl,
      splitAtFirst_append 10 fn2 _ hf2, splitAtFirst_append 10 fn _ hf] at h1
  simp only [Option.some.injEq, Prod.mk.injEq] at h1
  obtain ⟨hfn, hrest⟩ := h1
  have h3 := congrArg (splitAtFirst 10) hrest
  rw [splitAtFirst_append 10 (decNat n2) _ (newline_not_mem_decNat n2),
      splitAtFirst_append 10 (decNat n) _ (newline_not_mem_decNat n)] at h3
  simp only [Option.some.injEq, Prod.mk.injEq] at h3
  obtain ⟨hdec, hd⟩ := h3
  refine ⟨hfn, ?_, hd⟩
  have h4 := congrArg natOfDigits hdec
  rwa [natOfDigits_decNat, natOfDigits_decNat] at h4

/-- Claim C1: verifying the tag the sender computed over the same filename,
declared size and payload always accepts; and a frame with any mutation of
those fields (any change at all, which subsumes a single mutated byte) that
verification nevertheless accepts would exhibit an HMAC-SHA256 collision
under the session key — the standard formal reading of "verification
rejects every mutation", since literal universal rejection is exactly
collision-freeness of the keyed hash on these messages. -/
theorem claim_C1_hmac_sign_verify (key fn data fn2 : List Nat) (n2 : Nat) (data2 : List Nat)
    (h1 : (10 : Nat) ∉ fn) (h2 : (10 : Nat) ∉ fn2)
    (hmut : ¬ (fn2 = fn ∧ n2 = data.length ∧ data2 = data)) :
    verifySaveTag key fn data.length data (signSaveTag key fn data) = true ∧
    (verifySaveTag key fn2 n2 data2 (signSaveTag key fn data) = true →
      HmacCollision key) := by
  constructor
  · simp [verifySaveTag, signSaveTag]
  · intro hacc
    simp only [verifySaveTag, signSaveTag, beq_iff_eq] at hacc
    refine ⟨saveMsg fn2 n2 data2, saveMsg fn data.length data, ?_, hacc⟩
    intro he
    exact hmut (saveMsg_inj fn data.length data fn2 n2 data2 h1 h2 he)

set_option maxRecDepth 100000 in
/-- Witness for C1: with key `[1]`, filename `"f"` and payload `[3]`, the
genuine tag verifies, and the concrete single-byte filename mutation
`"f" → "g"` is in fact rejected (computed through the full SHA-256). -/
theorem claim_C1_witness :
    ((10 : Nat) ∉ ([102] : List Nat)) ∧ ((10 : Nat) ∉ ([103] : List Nat)) ∧
    (¬ (([103] : List Nat) = [102] ∧ (1 : Nat) = ([3] : List Nat).length ∧
        ([3] : List Nat) = [3])) ∧
    (verifySaveTag [1] [102] 1 [3] (signSaveTag [1] [102] [3]) = true ∧
     (verifySaveTag [1] [103] 1 [3] (signSaveTag [1] [102] [3]) = true →
       HmacCollision [1])) ∧
    verifySaveTag [1] [103] 1 [3] (signSaveTag [1] [102] [3]) = false :=
  ⟨by decide, by decide, by decide,
   claim_C1_hmac_sign_verify [1] [102] [3] [103] 1 [3] (by decide) (by decide) (by decide),
   by decide⟩
